import Mathlib

/-!
Shallow embedding of the `utf8-parser` crate (src/lib.rs, src/error.rs):
an incremental byte-at-a-time UTF-8 decoder.  Machine integers (`u8`,
`u32`) are modelled as `Nat` with explicit `% 2 ^ 32` where the Rust
code could wrap; fallible operations return `Except`.
-/

set_option maxRecDepth 10000

/-- Error type of the crate (src/error.rs, `Utf8ParserError`). -/
inductive Utf8ParserError where
  | InvalidByte (byte : Nat)
  | InvalidChar (word : Nat)
  | UnexpectedStartByte (byte : Nat)
  | UnexpectedContinuationByte (byte : Nat)
  | OverlongEncoding
deriving DecidableEq, Repr

instance {ε α : Type} [DecidableEq ε] [DecidableEq α] : DecidableEq (Except ε α) := fun x y =>
  match x, y with
  | .ok a, .ok b =>
    if h : a = b then .isTrue (by rw [h]) else .isFalse (by intro hc; cases hc; exact h rfl)
  | .error a, .error b =>
    if h : a = b then .isTrue (by rw [h]) else .isFalse (by intro hc; cases hc; exact h rfl)
  | .ok _, .error _ => .isFalse (by intro hc; cases hc)
  | .error _, .ok _ => .isFalse (by intro hc; cases hc)

def FIRST_CODE_POINT_FOR_DOUBLE : Nat := 0x80

def FIRST_CODE_POINT_FOR_TRIPLE : Nat := 0x800

def FIRST_CODE_POINT_FOR_QUADRUPLE : Nat := 0x10000

/-- Population count of an 8-bit value, modelling Rust's `u8::count_ones`
(the crate only ever applies it to `u8` quantities, which are below 256). -/
def countOnes (n : Nat) : Nat :=
  n % 2 + n / 2 % 2 + n / 4 % 2 + n / 8 % 2 + n / 16 % 2 + n / 32 % 2 + n / 64 % 2 + n / 128 % 2

/-- Categorization of a valid byte in UTF-8 (`Utf8ByteType` in src/lib.rs). -/
inductive Utf8ByteType where
  | Continuation
  | Single
  | Double
  | Triple
  | Quadruple
deriving DecidableEq, Repr

namespace Utf8ByteType

/-- Bit prefix identifying each byte class (`Utf8ByteType::id`). -/
def id : Utf8ByteType → Nat
  | Single => 0b0
  | Continuation => 0b10
  | Double => 0b110
  | Triple => 0b1110
  | Quadruple => 0b11110

/-- Length in bits of the class prefix (`Utf8ByteType::id_length`). -/
def id_length (t : Utf8ByteType) : Nat := countOnes t.id + 1

/-- Mask selecting the payload bits of a byte (`Utf8ByteType::value_mask`). -/
def value_mask (t : Utf8ByteType) : Nat := 0xFF >>> t.id_length

/-- Number of payload bits (`Utf8ByteType::value_mask_length`). -/
def value_mask_length (t : Utf8ByteType) : Nat := countOnes t.value_mask

/-- Whether a byte belongs to this class (`Utf8ByteType::matches`). -/
def matchesByte (t : Utf8ByteType) (byte : Nat) : Bool :=
  byte >>> t.value_mask_length == t.id

/-- Classify a byte (`Utf8ByteType::of`): scan the five classes in the
order of the Rust array and return the first that matches. -/
def of (byte : Nat) : Except Utf8ParserError Utf8ByteType :=
  match [Continuation, Single, Double, Triple, Quadruple].find? (fun k => k.matchesByte byte) with
  | some kind => .ok kind
  | none => .error (.InvalidByte byte)

end Utf8ByteType

/-- A classified byte from a UTF-8 stream (`ParsedByte` in src/lib.rs). -/
inductive ParsedByte where
  | Single (value : Nat)
  | StartDouble (value : Nat)
  | StartTriple (value : Nat)
  | StartQuadruple (value : Nat)
  | ContinuationByte (value : Nat)
deriving DecidableEq, Repr

/-- Construct a `ParsedByte` from a byte (`ParsedByte::from_byte`). -/
def ParsedByte.from_byte (byte : Nat) : Except Utf8ParserError ParsedByte :=
  match Utf8ByteType.of byte with
  | .error err => .error err
  | .ok kind =>
    let value := byte &&& kind.value_mask
    match kind with
    | .Continuation => .ok (.ContinuationByte value)
    | .Single => .ok (.Single value)
    | .Double => .ok (.StartDouble value)
    | .Triple => .ok (.StartTriple value)
    | .Quadruple => .ok (.StartQuadruple value)

/-- Parser state (`State` in src/lib.rs). -/
inductive State where
  | Fresh
  | OneLeft (acc : Nat)
  | TwoLeft (acc : Nat)
  | ThreeLeft (acc : Nat)
deriving DecidableEq, Repr

/-- Shift six payload bits into the accumulator (`push_byte` in src/lib.rs).
Both operands are `u32` in Rust, so the shift truncates modulo `2 ^ 32`. -/
def push_byte (current : Nat) (byte : Nat) : Nat :=
  ((current <<< Utf8ByteType.Continuation.value_mask_length) % 2 ^ 32) ||| byte

/-- The two `debug_assert!` conditions inside `push_byte`. -/
def push_byte_asserts (current byte : Nat) : Prop :=
  current ≤ 0x00FFFFFF ∧ byte ≤ 0b00111111

/-- Modelled from the spec: the scalar-value check done by the Rust
standard library's `char::from_u32` (not part of this repository).  The
spec: "Reject as invalid character if the value exceeds the maximum
Unicode scalar (0x10FFFF) or falls in the surrogate range
(0xD800-0xDFFF) ... Otherwise succeed with the decoded character." -/
def charFromU32 (val : Nat) : Option Nat :=
  if 0xD800 ≤ val ∧ val ≤ 0xDFFF then none
  else if 0x10FFFF < val then none
  else some val

namespace Utf8Parser

/-- Initial state (`Utf8Parser::new`). -/
def new : State := State.Fresh

/-- Inner functionality of `push` (`Utf8Parser::push_inner_impl`).  The
returned state is the state of the parser at the moment the Rust method
returns (mutations included), before `push`'s reset-on-error wrapper. -/
def push_inner_impl (state : State) (byte : Nat) :
    State × Except Utf8ParserError (Option Nat) :=
  match ParsedByte.from_byte byte with
  | .error e => (state, .error e)
  | .ok parsed =>
    match state, parsed with
    | State.OneLeft current, ParsedByte.ContinuationByte value =>
      let val := push_byte current value
      if val < FIRST_CODE_POINT_FOR_DOUBLE then
        (State.Fresh, .error .OverlongEncoding)
      else
        match charFromU32 val with
        | some c => (State.Fresh, .ok (some c))
        | none => (State.Fresh, .error (.InvalidChar val))
    | State.TwoLeft current, ParsedByte.ContinuationByte value =>
      let val := push_byte current value
      if (val <<< Utf8ByteType.Continuation.value_mask_length) % 2 ^ 32
          < FIRST_CODE_POINT_FOR_TRIPLE then
        (State.TwoLeft current, .error .OverlongEncoding)
      else
        (State.OneLeft val, .ok none)
    | State.ThreeLeft current, ParsedByte.ContinuationByte value =>
      let val := push_byte current value
      if (val <<< (2 * Utf8ByteType.Continuation.value_mask_length)) % 2 ^ 32
          < FIRST_CODE_POINT_FOR_QUADRUPLE then
        (State.ThreeLeft current, .error .OverlongEncoding)
      else
        (State.TwoLeft val, .ok none)
    | State.Fresh, ParsedByte.Single value => (State.Fresh, .ok (some value))
    | State.Fresh, ParsedByte.StartDouble value => (State.OneLeft value, .ok none)
    | State.Fresh, ParsedByte.StartTriple value => (State.TwoLeft value, .ok none)
    | State.Fresh, ParsedByte.StartQuadruple value => (State.ThreeLeft value, .ok none)
    | s, ParsedByte.Single value => (s, .error (.UnexpectedStartByte value))
    | s, ParsedByte.StartDouble value => (s, .error (.UnexpectedStartByte value))
    | s, ParsedByte.StartTriple value => (s, .error (.UnexpectedStartByte value))
    | s, ParsedByte.StartQuadruple value => (s, .error (.UnexpectedStartByte value))
    | State.Fresh, ParsedByte.ContinuationByte value =>
      (State.Fresh, .error (.UnexpectedContinuationByte value))

/-- Push a byte into the parser (`Utf8Parser::push`): on error the state
is reset to `Fresh` (`Utf8Parser::reset`) before the error is returned. -/
def push (state : State) (byte : Nat) : State × Except Utf8ParserError (Option Nat) :=
  match push_inner_impl state byte with
  | (s, .ok val) => (s, .ok val)
  | (_, .error val) => (State.Fresh, .error val)

/-- Feed a list of bytes one at a time, collecting the result of every
`push` call in order, together with the final state. -/
def pushTrace (state : State) : List Nat → State × List (Except Utf8ParserError (Option Nat))
  | [] => (state, [])
  | byte :: rest =>
    let step := push state byte
    let res := pushTrace step.1 rest
    (res.1, step.2 :: res.2)

/-- State reached from a freshly constructed parser after a byte list. -/
def run (bytes : List Nat) : State := (pushTrace new bytes).1

end Utf8Parser

/-- Unicode scalar value (0x0-0x10FFFF excluding surrogates), as in the
spec's glossary. -/
def IsScalar (c : Nat) : Prop := c < 0xD800 ∨ (0xE000 ≤ c ∧ c < 0x110000)

instance (c : Nat) : Decidable (IsScalar c) := by
  unfold IsScalar
  exact inferInstance

/-- Modelled from the spec: the standard UTF-8 encoding of one scalar
value ("re-encoding it to bytes"), which is not part of this repository.
A scalar below 0x80 takes one byte, below 0x800 two, below 0x10000
three, and four otherwise. -/
def utf8EncodeChar (c : Nat) : List Nat :=
  if c < 0x80 then [c]
  else if c < 0x800 then [0xC0 + c / 64, 0x80 + c % 64]
  else if c < 0x10000 then [0xE0 + c / 4096, 0x80 + c / 64 % 64, 0x80 + c % 64]
  else [0xF0 + c / 262144, 0x80 + c / 4096 % 64, 0x80 + c / 64 % 64, 0x80 + c % 64]

/-- Sequence of `push` results the round-trip property expects for one
encoded scalar: `none` for every byte but the last, the scalar at the last. -/
def decodeOutputs (c : Nat) : List (Except Utf8ParserError (Option Nat)) :=
  List.replicate ((utf8EncodeChar c).length - 1) (Except.ok none) ++ [Except.ok (some c)]

/-- Inductive bound on the accumulator in each awaiting state, as the
parser's transitions actually produce it. -/
def StrongInv : State → Prop
  | State.Fresh => True
  | State.OneLeft c => c < 0x8000
  | State.TwoLeft c => c < 0x200
  | State.ThreeLeft c => c < 0x8

instance (s : State) : Decidable (StrongInv s) := by
  cases s <;> (unfold StrongInv; exact inferInstance)

/-- The spec's accumulator invariant: at most 21 significant bits. -/
def Inv21 : State → Prop
  | State.Fresh => True
  | State.OneLeft c => c < 2 ^ 21
  | State.TwoLeft c => c < 2 ^ 21
  | State.ThreeLeft c => c < 2 ^ 21

instance (s : State) : Decidable (Inv21 s) := by
  cases s <;> (unfold Inv21; exact inferInstance)

/-- Whether the `debug_assert!`s inside `push_byte` hold for the (at most
one) call to `push_byte` that `push` performs from this state and byte. -/
def push_asserts (s : State) (b : Nat) : Prop :=
  match ParsedByte.from_byte b, s with
  | .ok (.ContinuationByte v), State.OneLeft c => push_byte_asserts c v
  | .ok (.ContinuationByte v), State.TwoLeft c => push_byte_asserts c v
  | .ok (.ContinuationByte v), State.ThreeLeft c => push_byte_asserts c v
  | _, _ => True

theorem from_byte_spec : ∀ b < 256, ParsedByte.from_byte b =
    (if b < 0x80 then .ok (.Single b)
     else if b < 0xC0 then .ok (.ContinuationByte (b - 0x80))
     else if b < 0xE0 then .ok (.StartDouble (b - 0xC0))
     else if b < 0xF0 then .ok (.StartTriple (b - 0xE0))
     else if b < 0xF8 then .ok (.StartQuadruple (b - 0xF0))
     else .error (.InvalidByte b)) := by decide

theorem push_of_inner_ok {s s' : State} {b : Nat} {v : Option Nat}
    (h : Utf8Parser.push_inner_impl s b = (s', .ok v)) :
    Utf8Parser.push s b = (s', .ok v) := by
  simp [Utf8Parser.push, h]

theorem push_of_inner_error {s : State} {b : Nat} {e : Utf8ParserError}
    (h : (Utf8Parser.push_inner_impl s b).2 = .error e) :
    Utf8Parser.push s b = (State.Fresh, .error e) := by
  rw [Utf8Parser.push]
  rcases hi : Utf8Parser.push_inner_impl s b with ⟨s', r⟩
  rw [hi] at h
  cases r with
  | ok v => simp at h
  | error e2 => simp at h; subst h; rfl

theorem push_byte_eq {c v : Nat} (hc : c < 2 ^ 26) (hv : v < 64) :
    push_byte c v = 64 * c + v := by
  have h6 : Utf8ByteType.Continuation.value_mask_length = 6 := rfl
  rw [push_byte, h6, Nat.shiftLeft_eq]
  have hlt : c * 2 ^ 6 < 2 ^ 32 := by
    have h64 : (2 : Nat) ^ 6 = 64 := by norm_num
    have h32 : (2 : Nat) ^ 32 = 4294967296 := by norm_num
    have h26 : (2 : Nat) ^ 26 = 67108864 := by norm_num
    rw [h64, h32]
    omega
  rw [Nat.mod_eq_of_lt hlt, Nat.mul_comm c (2 ^ 6), ← Nat.mul_add_lt_is_or (show v < 2 ^ 6 by omega) c]

theorem pushTrace_cons (s : State) (b : Nat) (bs : List Nat) :
    Utf8Parser.pushTrace s (b :: bs) =
      ((Utf8Parser.pushTrace (Utf8Parser.push s b).1 bs).1,
        (Utf8Parser.push s b).2 :: (Utf8Parser.pushTrace (Utf8Parser.push s b).1 bs).2) := rfl

theorem pushTrace_append (s : State) (xs ys : List Nat) :
    Utf8Parser.pushTrace s (xs ++ ys) =
      ((Utf8Parser.pushTrace (Utf8Parser.pushTrace s xs).1 ys).1,
        (Utf8Parser.pushTrace s xs).2 ++ (Utf8Parser.pushTrace (Utf8Parser.pushTrace s xs).1 ys).2) := by
  induction xs generalizing s with
  | nil => simp [Utf8Parser.pushTrace]
  | cons b bs ih => simp [pushTrace_cons, List.cons_append, ih]

theorem push_fresh_single {b : Nat} (h : b < 0x80) :
    Utf8Parser.push State.Fresh b = (State.Fresh, .ok (some b)) := by
  have hfb : ParsedByte.from_byte b = .ok (.Single b) := by
    rw [from_byte_spec b (by omega), if_pos h]
  exact push_of_inner_ok (by simp [Utf8Parser.push_inner_impl, hfb])

theorem push_fresh_cont {b : Nat} (h1 : 0x80 ≤ b) (h2 : b < 0xC0) :
    Utf8Parser.push State.Fresh b =
      (State.Fresh, .error (.UnexpectedContinuationByte (b - 0x80))) := by
  have hfb : ParsedByte.from_byte b = .ok (.ContinuationByte (b - 0x80)) := by
    rw [from_byte_spec b (by omega), if_neg (by omega), if_pos h2]
  exact push_of_inner_error (by simp [Utf8Parser.push_inner_impl, hfb])

theorem push_fresh_double {b : Nat} (h1 : 0xC0 ≤ b) (h2 : b < 0xE0) :
    Utf8Parser.push State.Fresh b = (State.OneLeft (b - 0xC0), .ok none) := by
  have hfb : ParsedByte.from_byte b = .ok (.StartDouble (b - 0xC0)) := by
    rw [from_byte_spec b (by omega), if_neg (by omega), if_neg (by omega), if_pos h2]
  exact push_of_inner_ok (by simp [Utf8Parser.push_inner_impl, hfb])

theorem push_fresh_triple {b : Nat} (h1 : 0xE0 ≤ b) (h2 : b < 0xF0) :
    Utf8Parser.push State.Fresh b = (State.TwoLeft (b - 0xE0), .ok none) := by
  have hfb : ParsedByte.from_byte b = .ok (.StartTriple (b - 0xE0)) := by
    rw [from_byte_spec b (by omega), if_neg (by omega), if_neg (by omega), if_neg (by omega),
      if_pos h2]
  exact push_of_inner_ok (by simp [Utf8Parser.push_inner_impl, hfb])

theorem push_fresh_quad {b : Nat} (h1 : 0xF0 ≤ b) (h2 : b < 0xF8) :
    Utf8Parser.push State.Fresh b = (State.ThreeLeft (b - 0xF0), .ok none) := by
  have hfb : ParsedByte.from_byte b = .ok (.StartQuadruple (b - 0xF0)) := by
    rw [from_byte_spec b (by omega), if_neg (by omega), if_neg (by omega), if_neg (by omega),
      if_neg (by omega), if_pos h2]
  exact push_of_inner_ok (by simp [Utf8Parser.push_inner_impl, hfb])

theorem push_invalid {b : Nat} (h1 : 0xF8 ≤ b) (h2 : b < 256) (s : State) :
    Utf8Parser.push s b = (State.Fresh, .error (.InvalidByte b)) := by
  have hfb : ParsedByte.from_byte b = .error (.InvalidByte b) := by
    rw [from_byte_spec b h2, if_neg (by omega), if_neg (by omega), if_neg (by omega),
      if_neg (by omega), if_neg (by omega)]
  exact push_of_inner_error (by simp [Utf8Parser.push_inner_impl, hfb])

theorem push_oneLeft_cont {c b : Nat} (hc : c ≤ 0xFFFFFF) (h1 : 0x80 ≤ b) (h2 : b < 0xC0) :
    Utf8Parser.push (State.OneLeft c) b =
      (State.Fresh,
        if 64 * c + (b - 0x80) < 0x80 then .error .OverlongEncoding
        else match charFromU32 (64 * c + (b - 0x80)) with
          | some ch => .ok (some ch)
          | none => .error (.InvalidChar (64 * c + (b - 0x80)))) := by
  have hfb : ParsedByte.from_byte b = .ok (.ContinuationByte (b - 0x80)) := by
    rw [from_byte_spec b (by omega), if_neg (by omega), if_pos h2]
  have hpb : push_byte c (b - 0x80) = 64 * c + (b - 0x80) := push_byte_eq (by omega) (by omega)
  by_cases hov : 64 * c + (b - 0x80) < 0x80
  · rw [if_pos hov]
    apply push_of_inner_error
    simp only [Utf8Parser.push_inner_impl, hfb, hpb, FIRST_CODE_POINT_FOR_DOUBLE]
    rw [if_pos hov]
  · rw [if_neg hov]
    rcases hcf : charFromU32 (64 * c + (b - 0x80)) with _ | ch
    · apply push_of_inner_error
      simp only [Utf8Parser.push_inner_impl, hfb, hpb, FIRST_CODE_POINT_FOR_DOUBLE]
      rw [if_neg hov, hcf]
    · apply push_of_inner_ok
      simp only [Utf8Parser.push_inner_impl, hfb, hpb, FIRST_CODE_POINT_FOR_DOUBLE]
      rw [if_neg hov, hcf]

theorem push_twoLeft_cont {c b : Nat} (hc : c < 0x80000) (h1 : 0x80 ≤ b) (h2 : b < 0xC0) :
    Utf8Parser.push (State.TwoLeft c) b =
      if 64 * (64 * c + (b - 0x80)) < 0x800 then (State.Fresh, .error .OverlongEncoding)
      else (State.OneLeft (64 * c + (b - 0x80)), .ok none) := by
  have hfb : ParsedByte.from_byte b = .ok (.ContinuationByte (b - 0x80)) := by
    rw [from_byte_spec b (by omega), if_neg (by omega), if_pos h2]
  have hpb : push_byte c (b - 0x80) = 64 * c + (b - 0x80) := push_byte_eq (by omega) (by omega)
  have hsh : ((64 * c + (b - 0x80)) <<< Utf8ByteType.Continuation.value_mask_length) % 2 ^ 32
      = 64 * (64 * c + (b - 0x80)) := by
    have h6 : Utf8ByteType.Continuation.value_mask_length = 6 := rfl
    rw [h6, Nat.shiftLeft_eq]
    rw [Nat.mod_eq_of_lt (by norm_num; omega)]
    norm_num
    omega
  by_cases hov : 64 * (64 * c + (b - 0x80)) < 0x800
  · rw [if_pos hov]
    apply push_of_inner_error
    simp only [Utf8Parser.push_inner_impl, hfb, hpb, hsh, FIRST_CODE_POINT_FOR_TRIPLE]
    rw [if_pos hov]
  · rw [if_neg hov]
    apply push_of_inner_ok
    simp only [Utf8Parser.push_inner_impl, hfb, hpb, hsh, FIRST_CODE_POINT_FOR_TRIPLE]
    rw [if_neg hov]

theorem push_threeLeft_cont {c b : Nat} (hc : c < 0x2000) (h1 : 0x80 ≤ b) (h2 : b < 0xC0) :
    Utf8Parser.push (State.ThreeLeft c) b =
      if 4096 * (64 * c + (b - 0x80)) < 0x10000 then (State.Fresh, .error .OverlongEncoding)
      else (State.TwoLeft (64 * c + (b - 0x80)), .ok none) := by
  have hfb : ParsedByte.from_byte b = .ok (.ContinuationByte (b - 0x80)) := by
    rw [from_byte_spec b (by omega), if_neg (by omega), if_pos h2]
  have hpb : push_byte c (b - 0x80) = 64 * c + (b - 0x80) := push_byte_eq (by omega) (by omega)
  have hsh : ((64 * c + (b - 0x80)) <<< (2 * Utf8ByteType.Continuation.value_mask_length)) % 2 ^ 32
      = 4096 * (64 * c + (b - 0x80)) := by
    have h6 : 2 * Utf8ByteType.Continuation.value_mask_length = 12 := rfl
    rw [h6, Nat.shiftLeft_eq]
    rw [Nat.mod_eq_of_lt (by norm_num; omega)]
    norm_num
    omega
  by_cases hov : 4096 * (64 * c + (b - 0x80)) < 0x10000
  · rw [if_pos hov]
    apply push_of_inner_error
    simp only [Utf8Parser.push_inner_impl, hfb, hpb, hsh, FIRST_CODE_POINT_FOR_QUADRUPLE]
    rw [if_pos hov]
  · rw [if_neg hov]
    apply push_of_inner_ok
    simp only [Utf8Parser.push_inner_impl, hfb, hpb, hsh, FIRST_CODE_POINT_FOR_QUADRUPLE]
    rw [if_neg hov]

theorem push_awaiting_single {s : State} {b : Nat} (hs : s ≠ State.Fresh) (hb : b < 0x80) :
    Utf8Parser.push s b = (State.Fresh, .error (.UnexpectedStartByte b)) := by
  have hfb : ParsedByte.from_byte b = .ok (.Single b) := by
    rw [from_byte_spec b (by omega), if_pos hb]
  apply push_of_inner_error
  cases s with
  | Fresh => exact absurd rfl hs
  | OneLeft c => simp [Utf8Parser.push_inner_impl, hfb]
  | TwoLeft c => simp [Utf8Parser.push_inner_impl, hfb]
  | ThreeLeft c => simp [Utf8Parser.push_inner_impl, hfb]

theorem push_awaiting_double {s : State} {b : Nat} (hs : s ≠ State.Fresh)
    (h1 : 0xC0 ≤ b) (h2 : b < 0xE0) :
    Utf8Parser.push s b = (State.Fresh, .error (.UnexpectedStartByte (b - 0xC0))) := by
  have hfb : ParsedByte.from_byte b = .ok (.StartDouble (b - 0xC0)) := by
    rw [from_byte_spec b (by omega), if_neg (by omega), if_neg (by omega), if_pos h2]
  apply push_of_inner_error
  cases s with
  | Fresh => exact absurd rfl hs
  | OneLeft c => simp [Utf8Parser.push_inner_impl, hfb]
  | TwoLeft c => simp [Utf8Parser.push_inner_impl, hfb]
  | ThreeLeft c => simp [Utf8Parser.push_inner_impl, hfb]

theorem push_awaiting_triple {s : State} {b : Nat} (hs : s ≠ State.Fresh)
    (h1 : 0xE0 ≤ b) (h2 : b < 0xF0) :
    Utf8Parser.push s b = (State.Fresh, .error (.UnexpectedStartByte (b - 0xE0))) := by
  have hfb : ParsedByte.from_byte b = .ok (.StartTriple (b - 0xE0)) := by
    rw [from_byte_spec b (by omega), if_neg (by omega), if_neg (by omega), if_neg (by omega),
      if_pos h2]
  apply push_of_inner_error
  cases s with
  | Fresh => exact absurd rfl hs
  | OneLeft c => simp [Utf8Parser.push_inner_impl, hfb]
  | TwoLeft c => simp [Utf8Parser.push_inner_impl, hfb]
  | ThreeLeft c => simp [Utf8Parser.push_inner_impl, hfb]

theorem push_awaiting_quad {s : State} {b : Nat} (hs : s ≠ State.Fresh)
    (h1 : 0xF0 ≤ b) (h2 : b < 0xF8) :
    Utf8Parser.push s b = (State.Fresh, .error (.UnexpectedStartByte (b - 0xF0))) := by
  have hfb : ParsedByte.from_byte b = .ok (.StartQuadruple (b - 0xF0)) := by
    rw [from_byte_spec b (by omega), if_neg (by omega), if_neg (by omega), if_neg (by omega),
      if_neg (by omega), if_pos h2]
  apply push_of_inner_error
  cases s with
  | Fresh => exact absurd rfl hs
  | OneLeft c => simp [Utf8Parser.push_inner_impl, hfb]
  | TwoLeft c => simp [Utf8Parser.push_inner_impl, hfb]
  | ThreeLeft c => simp [Utf8Parser.push_inner_impl, hfb]

theorem pushTrace_cons_eq {s s1 s2 : State} {b : Nat} {bs : List Nat}
    {r : Except Utf8ParserError (Option Nat)} {rs : List (Except Utf8ParserError (Option Nat))}
    (hp : Utf8Parser.push s b = (s1, r)) (ht : Utf8Parser.pushTrace s1 bs = (s2, rs)) :
    Utf8Parser.pushTrace s (b :: bs) = (s2, r :: rs) := by
  rw [pushTrace_cons, hp]
  dsimp only
  rw [ht]

theorem decode_encode_char {c : Nat} (h : IsScalar c) :
    Utf8Parser.pushTrace State.Fresh (utf8EncodeChar c) = (State.Fresh, decodeOutputs c) := by
  have hc : c < 0x110000 := by rcases h with h | ⟨ha, hb⟩ <;> omega
  have hch : charFromU32 c = some c := by
    rw [charFromU32, if_neg (by rcases h with h | ⟨ha, hb⟩ <;> omega),
      if_neg (by rcases h with h | ⟨ha, hb⟩ <;> omega)]
  by_cases h1 : c < 0x80
  · have he : utf8EncodeChar c = [c] := by rw [utf8EncodeChar, if_pos h1]
    rw [he, decodeOutputs, he]
    exact pushTrace_cons_eq (push_fresh_single h1) rfl
  · by_cases h2 : c < 0x800
    · have he : utf8EncodeChar c = [0xC0 + c / 64, 0x80 + c % 64] := by
        rw [utf8EncodeChar, if_neg h1, if_pos h2]
      have hp1 : Utf8Parser.push State.Fresh (0xC0 + c / 64) = (State.OneLeft (c / 64), .ok none) := by
        rw [push_fresh_double (by omega) (by omega)]
        have hacc : 0xC0 + c / 64 - 0xC0 = c / 64 := by omega
        rw [hacc]
      have hp2 : Utf8Parser.push (State.OneLeft (c / 64)) (0x80 + c % 64)
          = (State.Fresh, .ok (some c)) := by
        rw [push_oneLeft_cont (by omega) (by omega) (by omega)]
        have hval : 64 * (c / 64) + (0x80 + c % 64 - 0x80) = c := by omega
        rw [hval, if_neg (by omega), hch]
      rw [he, decodeOutputs, he]
      exact pushTrace_cons_eq hp1 (pushTrace_cons_eq hp2 rfl)
    · by_cases h3 : c < 0x10000
      · have he : utf8EncodeChar c = [0xE0 + c / 4096, 0x80 + c / 64 % 64, 0x80 + c % 64] := by
          rw [utf8EncodeChar, if_neg h1, if_neg h2, if_pos h3]
        have hp1 : Utf8Parser.push State.Fresh (0xE0 + c / 4096)
            = (State.TwoLeft (c / 4096), .ok none) := by
          rw [push_fresh_triple (by omega) (by omega)]
          have hacc : 0xE0 + c / 4096 - 0xE0 = c / 4096 := by omega
          rw [hacc]
        have hp2 : Utf8Parser.push (State.TwoLeft (c / 4096)) (0x80 + c / 64 % 64)
            = (State.OneLeft (c / 64), .ok none) := by
          rw [push_twoLeft_cont (by omega) (by omega) (by omega), if_neg (by omega)]
          have hval : 64 * (c / 4096) + (0x80 + c / 64 % 64 - 0x80) = c / 64 := by omega
          rw [hval]
        have hp3 : Utf8Parser.push (State.OneLeft (c / 64)) (0x80 + c % 64)
            = (State.Fresh, .ok (some c)) := by
          rw [push_oneLeft_cont (by omega) (by omega) (by omega)]
          have hval : 64 * (c / 64) + (0x80 + c % 64 - 0x80) = c := by omega
          rw [hval, if_neg (by omega), hch]
        rw [he, decodeOutputs, he]
        exact pushTrace_cons_eq hp1 (pushTrace_cons_eq hp2 (pushTrace_cons_eq hp3 rfl))
      · have he : utf8EncodeChar c
            = [0xF0 + c / 262144, 0x80 + c / 4096 % 64, 0x80 + c / 64 % 64, 0x80 + c % 64] := by
          rw [utf8EncodeChar, if_neg h1, if_neg h2, if_neg h3]
        have hp1 : Utf8Parser.push State.Fresh (0xF0 + c / 262144)
            = (State.ThreeLeft (c / 262144), .ok none) := by
          rw [push_fresh_quad (by omega) (by omega)]
          have hacc : 0xF0 + c / 262144 - 0xF0 = c / 262144 := by omega
          rw [hacc]
        have hp2 : Utf8Parser.push (State.ThreeLeft (c / 262144)) (0x80 + c / 4096 % 64)
            = (State.TwoLeft (c / 4096), .ok none) := by
          rw [push_threeLeft_cont (by omega) (by omega) (by omega), if_neg (by omega)]
          have hval : 64 * (c / 262144) + (0x80 + c / 4096 % 64 - 0x80) = c / 4096 := by omega
          rw [hval]
        have hp3 : Utf8Parser.push (State.TwoLeft (c / 4096)) (0x80 + c / 64 % 64)
            = (State.OneLeft (c / 64), .ok none) := by
          rw [push_twoLeft_cont (by omega) (by omega) (by omega), if_neg (by omega)]
          have hval : 64 * (c / 4096) + (0x80 + c / 64 % 64 - 0x80) = c / 64 := by omega
          rw [hval]
        have hp4 : Utf8Parser.push (State.OneLeft (c / 64)) (0x80 + c % 64)
            = (State.Fresh, .ok (some c)) := by
          rw [push_oneLeft_cont (by omega) (by omega) (by omega)]
          have hval : 64 * (c / 64) + (0x80 + c % 64 - 0x80) = c := by omega
          rw [hval, if_neg (by omega), hch]
        rw [he, decodeOutputs, he]
        exact pushTrace_cons_eq hp1
          (pushTrace_cons_eq hp2 (pushTrace_cons_eq hp3 (pushTrace_cons_eq hp4 rfl)))

theorem decode_encode_list (cs : List Nat) (h : ∀ c ∈ cs, IsScalar c) :
    Utf8Parser.pushTrace State.Fresh (cs.flatMap utf8EncodeChar)
      = (State.Fresh, cs.flatMap decodeOutputs) := by
  induction cs with
  | nil => rfl
  | cons c cs ih =>
    rw [List.flatMap_cons, List.flatMap_cons, pushTrace_append,
      decode_encode_char (h c (by simp))]
    dsimp only
    rw [ih (fun x hx => h x (by simp [hx]))]

theorem strongInv_push {s : State} {b : Nat} (hs : StrongInv s) (hb : b < 256) :
    StrongInv (Utf8Parser.push s b).1 := by
  rcases Nat.lt_or_ge b 0x80 with h1 | h1
  · cases s with
    | Fresh => rw [push_fresh_single h1]; trivial
    | OneLeft c => rw [push_awaiting_single (by simp) h1]; trivial
    | TwoLeft c => rw [push_awaiting_single (by simp) h1]; trivial
    | ThreeLeft c => rw [push_awaiting_single (by simp) h1]; trivial
  rcases Nat.lt_or_ge b 0xC0 with h2 | h2
  · cases s with
    | Fresh => rw [push_fresh_cont h1 h2]; trivial
    | OneLeft c =>
      have hc : c < 0x8000 := hs
      rw [push_oneLeft_cont (by omega) h1 h2]
      trivial
    | TwoLeft c =>
      have hc : c < 0x200 := hs
      rw [push_twoLeft_cont (by omega) h1 h2]
      by_cases hov : 64 * (64 * c + (b - 0x80)) < 0x800
      · rw [if_pos hov]; trivial
      · rw [if_neg hov]
        show 64 * c + (b - 0x80) < 0x8000
        omega
    | ThreeLeft c =>
      have hc : c < 0x8 := hs
      rw [push_threeLeft_cont (by omega) h1 h2]
      by_cases hov : 4096 * (64 * c + (b - 0x80)) < 0x10000
      · rw [if_pos hov]; trivial
      · rw [if_neg hov]
        show 64 * c + (b - 0x80) < 0x200
        omega
  rcases Nat.lt_or_ge b 0xE0 with h3 | h3
  · cases s with
    | Fresh =>
      rw [push_fresh_double h2 h3]
      unfold StrongInv
      omega
    | OneLeft c => rw [push_awaiting_double (by simp) h2 h3]; trivial
    | TwoLeft c => rw [push_awaiting_double (by simp) h2 h3]; trivial
    | ThreeLeft c => rw [push_awaiting_double (by simp) h2 h3]; trivial
  rcases Nat.lt_or_ge b 0xF0 with h4 | h4
  · cases s with
    | Fresh =>
      rw [push_fresh_triple h3 h4]
      unfold StrongInv
      omega
    | OneLeft c => rw [push_awaiting_triple (by simp) h3 h4]; trivial
    | TwoLeft c => rw [push_awaiting_triple (by simp) h3 h4]; trivial
    | ThreeLeft c => rw [push_awaiting_triple (by simp) h3 h4]; trivial
  rcases Nat.lt_or_ge b 0xF8 with h5 | h5
  · cases s with
    | Fresh =>
      rw [push_fresh_quad h4 h5]
      unfold StrongInv
      omega
    | OneLeft c => rw [push_awaiting_quad (by simp) h4 h5]; trivial
    | TwoLeft c => rw [push_awaiting_quad (by simp) h4 h5]; trivial
    | ThreeLeft c => rw [push_awaiting_quad (by simp) h4 h5]; trivial
  rw [push_invalid h5 hb s]
  trivial

theorem strongInv_pushTrace {s : State} (bs : List Nat) (hs : StrongInv s)
    (hb : ∀ b ∈ bs, b < 256) : StrongInv (Utf8Parser.pushTrace s bs).1 := by
  induction bs generalizing s with
  | nil => exact hs
  | cons b rest ih =>
    rw [pushTrace_cons]
    exact ih (strongInv_push hs (hb b (by simp))) (fun x hx => hb x (by simp [hx]))

theorem strongInv_run (bs : List Nat) (hb : ∀ b ∈ bs, b < 256) :
    StrongInv (Utf8Parser.run bs) :=
  strongInv_pushTrace bs trivial hb

theorem push_oneLeft_cont_raw (c b : Nat) (h1 : 0x80 ≤ b) (h2 : b < 0xC0) :
    Utf8Parser.push (State.OneLeft c) b =
      (State.Fresh,
        if push_byte c (b - 0x80) < FIRST_CODE_POINT_FOR_DOUBLE then .error .OverlongEncoding
        else match charFromU32 (push_byte c (b - 0x80)) with
          | some ch => .ok (some ch)
          | none => .error (.InvalidChar (push_byte c (b - 0x80)))) := by
  have hfb : ParsedByte.from_byte b = .ok (.ContinuationByte (b - 0x80)) := by
    rw [from_byte_spec b (by omega), if_neg (by omega), if_pos h2]
  by_cases hov : push_byte c (b - 0x80) < FIRST_CODE_POINT_FOR_DOUBLE
  · rw [if_pos hov]
    apply push_of_inner_error
    simp only [Utf8Parser.push_inner_impl, hfb]
    rw [if_pos hov]
  · rw [if_neg hov]
    rcases hcf : charFromU32 (push_byte c (b - 0x80)) with _ | ch
    · apply push_of_inner_error
      simp only [Utf8Parser.push_inner_impl, hfb]
      rw [if_neg hov, hcf]
    · apply push_of_inner_ok
      simp only [Utf8Parser.push_inner_impl, hfb]
      rw [if_neg hov, hcf]

theorem push_twoLeft_cont_raw (c b : Nat) (h1 : 0x80 ≤ b) (h2 : b < 0xC0) :
    Utf8Parser.push (State.TwoLeft c) b =
      if (push_byte c (b - 0x80) <<< Utf8ByteType.Continuation.value_mask_length) % 2 ^ 32
          < FIRST_CODE_POINT_FOR_TRIPLE
      then (State.Fresh, .error .OverlongEncoding)
      else (State.OneLeft (push_byte c (b - 0x80)), .ok none) := by
  have hfb : ParsedByte.from_byte b = .ok (.ContinuationByte (b - 0x80)) := by
    rw [from_byte_spec b (by omega), if_neg (by omega), if_pos h2]
  by_cases hov : (push_byte c (b - 0x80) <<< Utf8ByteType.Continuation.value_mask_length) % 2 ^ 32
      < FIRST_CODE_POINT_FOR_TRIPLE
  · rw [if_pos hov]
    apply push_of_inner_error
    simp only [Utf8Parser.push_inner_impl, hfb]
    rw [if_pos hov]
  · rw [if_neg hov]
    apply push_of_inner_ok
    simp only [Utf8Parser.push_inner_impl, hfb]
    rw [if_neg hov]

theorem push_threeLeft_cont_raw (c b : Nat) (h1 : 0x80 ≤ b) (h2 : b < 0xC0) :
    Utf8Parser.push (State.ThreeLeft c) b =
      if (push_byte c (b - 0x80) <<< (2 * Utf8ByteType.Continuation.value_mask_length)) % 2 ^ 32
          < FIRST_CODE_POINT_FOR_QUADRUPLE
      then (State.Fresh, .error .OverlongEncoding)
      else (State.TwoLeft (push_byte c (b - 0x80)), .ok none) := by
  have hfb : ParsedByte.from_byte b = .ok (.ContinuationByte (b - 0x80)) := by
    rw [from_byte_spec b (by omega), if_neg (by omega), if_pos h2]
  by_cases hov : (push_byte c (b - 0x80) <<< (2 * Utf8ByteType.Continuation.value_mask_length)) % 2 ^ 32
      < FIRST_CODE_POINT_FOR_QUADRUPLE
  · rw [if_pos hov]
    apply push_of_inner_error
    simp only [Utf8Parser.push_inner_impl, hfb]
    rw [if_pos hov]
  · rw [if_neg hov]
    apply push_of_inner_ok
    simp only [Utf8Parser.push_inner_impl, hfb]
    rw [if_neg hov]

theorem push_error_forms (s : State) (b : Nat) (hb : b < 256) (e : Utf8ParserError)
    (he : (Utf8Parser.push s b).2 = .error e) :
    (0xF8 ≤ b ∧ e = .InvalidByte b)
    ∨ (0x80 ≤ b ∧ b < 0xC0 ∧ s = State.Fresh ∧ e = .UnexpectedContinuationByte (b - 0x80))
    ∨ (s ≠ State.Fresh ∧
        ((b < 0x80 ∧ e = .UnexpectedStartByte b)
          ∨ (0xC0 ≤ b ∧ b < 0xE0 ∧ e = .UnexpectedStartByte (b - 0xC0))
          ∨ (0xE0 ≤ b ∧ b < 0xF0 ∧ e = .UnexpectedStartByte (b - 0xE0))
          ∨ (0xF0 ≤ b ∧ b < 0xF8 ∧ e = .UnexpectedStartByte (b - 0xF0))))
    ∨ e = .OverlongEncoding ∨ (∃ w, e = .InvalidChar w) := by
  rcases Nat.lt_or_ge b 0x80 with h1 | h1
  · cases s with
    | Fresh => rw [push_fresh_single h1] at he; simp at he
    | OneLeft c =>
      rw [push_awaiting_single (by simp) h1] at he
      simp at he
      subst he
      exact Or.inr (Or.inr (Or.inl ⟨by simp, Or.inl ⟨h1, rfl⟩⟩))
    | TwoLeft c =>
      rw [push_awaiting_single (by simp) h1] at he
      simp at he
      subst he
      exact Or.inr (Or.inr (Or.inl ⟨by simp, Or.inl ⟨h1, rfl⟩⟩))
    | ThreeLeft c =>
      rw [push_awaiting_single (by simp) h1] at he
      simp at he
      subst he
      exact Or.inr (Or.inr (Or.inl ⟨by simp, Or.inl ⟨h1, rfl⟩⟩))
  rcases Nat.lt_or_ge b 0xC0 with h2 | h2
  · cases s with
    | Fresh =>
      rw [push_fresh_cont h1 h2] at he
      simp at he
      subst he
      exact Or.inr (Or.inl ⟨h1, h2, rfl, rfl⟩)
    | OneLeft c =>
      rw [push_oneLeft_cont_raw c b h1 h2] at he
      dsimp only at he
      by_cases hov : push_byte c (b - 0x80) < FIRST_CODE_POINT_FOR_DOUBLE
      · rw [if_pos hov] at he
        simp at he
        subst he
        exact Or.inr (Or.inr (Or.inr (Or.inl rfl)))
      · rw [if_neg hov] at he
        rcases hcf : charFromU32 (push_byte c (b - 0x80)) with _ | ch
        · rw [hcf] at he
          simp at he
          subst he
          exact Or.inr (Or.inr (Or.inr (Or.inr ⟨_, rfl⟩)))
        · rw [hcf] at he
          simp at he
    | TwoLeft c =>
      rw [push_twoLeft_cont_raw c b h1 h2] at he
      by_cases hov : (push_byte c (b - 0x80) <<< Utf8ByteType.Continuation.value_mask_length) % 2 ^ 32
          < FIRST_CODE_POINT_FOR_TRIPLE
      · rw [if_pos hov] at he
        simp at he
        subst he
        exact Or.inr (Or.inr (Or.inr (Or.inl rfl)))
      · rw [if_neg hov] at he
        simp at he
    | ThreeLeft c =>
      rw [push_threeLeft_cont_raw c b h1 h2] at he
      by_cases hov : (push_byte c (b - 0x80) <<< (2 * Utf8ByteType.Continuation.value_mask_length)) % 2 ^ 32
          < FIRST_CODE_POINT_FOR_QUADRUPLE
      · rw [if_pos hov] at he
        simp at he
        subst he
        exact Or.inr (Or.inr (Or.inr (Or.inl rfl)))
      · rw [if_neg hov] at he
        simp at he
  rcases Nat.lt_or_ge b 0xE0 with h3 | h3
  · cases s with
    | Fresh => rw [push_fresh_double h2 h3] at he; simp at he
    | OneLeft c =>
      rw [push_awaiting_double (by simp) h2 h3] at he
      simp at he
      subst he
      exact Or.inr (Or.inr (Or.inl ⟨by simp, Or.inr (Or.inl ⟨h2, h3, rfl⟩)⟩))
    | TwoLeft c =>
      rw [push_awaiting_double (by simp) h2 h3] at he
      simp at he
      subst he
      exact Or.inr (Or.inr (Or.inl ⟨by simp, Or.inr (Or.inl ⟨h2, h3, rfl⟩)⟩))
    | ThreeLeft c =>
      rw [push_awaiting_double (by simp) h2 h3] at he
      simp at he
      subst he
      exact Or.inr (Or.inr (Or.inl ⟨by simp, Or.inr (Or.inl ⟨h2, h3, rfl⟩)⟩))
  rcases Nat.lt_or_ge b 0xF0 with h4 | h4
  · cases s with
    | Fresh => rw [push_fresh_triple h3 h4] at he; simp at he
    | OneLeft c =>
      rw [push_awaiting_triple (by simp) h3 h4] at he
      simp at he
      subst he
      exact Or.inr (Or.inr (Or.inl ⟨by simp, Or.inr (Or.inr (Or.inl ⟨h3, h4, rfl⟩))⟩))
    | TwoLeft c =>
      rw [push_awaiting_triple (by simp) h3 h4] at he
      simp at he
      subst he
      exact Or.inr (Or.inr (Or.inl ⟨by simp, Or.inr (Or.inr (Or.inl ⟨h3, h4, rfl⟩))⟩))
    | ThreeLeft c =>
      rw [push_awaiting_triple (by simp) h3 h4] at he
      simp at he
      subst he
      exact Or.inr (Or.inr (Or.inl ⟨by simp, Or.inr (Or.inr (Or.inl ⟨h3, h4, rfl⟩))⟩))
  rcases Nat.lt_or_ge b 0xF8 with h5 | h5
  · cases s with
    | Fresh => rw [push_fresh_quad h4 h5] at he; simp at he
    | OneLeft c =>
      rw [push_awaiting_quad (by simp) h4 h5] at he
      simp at he
      subst he
      exact Or.inr (Or.inr (Or.inl ⟨by simp, Or.inr (Or.inr (Or.inr ⟨h4, h5, rfl⟩))⟩))
    | TwoLeft c =>
      rw [push_awaiting_quad (by simp) h4 h5] at he
      simp at he
      subst he
      exact Or.inr (Or.inr (Or.inl ⟨by simp, Or.inr (Or.inr (Or.inr ⟨h4, h5, rfl⟩))⟩))
    | ThreeLeft c =>
      rw [push_awaiting_quad (by simp) h4 h5] at he
      simp at he
      subst he
      exact Or.inr (Or.inr (Or.inl ⟨by simp, Or.inr (Or.inr (Or.inr ⟨h4, h5, rfl⟩))⟩))
  rw [push_invalid h5 hb s] at he
  simp at he
  subst he
  exact Or.inl ⟨h5, rfl⟩

/-- C1: for every list of Unicode scalar values, encoding each scalar to
UTF-8 bytes and feeding all the bytes one at a time into a freshly
constructed parser reproduces the original scalars exactly and in order:
every push of a non-final byte of a scalar's encoding returns Ok none,
every push of a final byte returns Ok (some c) with c the original scalar,
and no push returns an error. -/
theorem C1_round_trip (cs : List Nat) (h : ∀ c ∈ cs, IsScalar c) :
    Utf8Parser.pushTrace State.Fresh (cs.flatMap utf8EncodeChar)
      = (State.Fresh, cs.flatMap decodeOutputs) :=
  decode_encode_list cs h

theorem C1_round_trip_witness :
    Utf8Parser.pushTrace State.Fresh ([0x48, 0xE9, 0x4E2D, 0x1F98A].flatMap utf8EncodeChar)
      = (State.Fresh, [0x48, 0xE9, 0x4E2D, 0x1F98A].flatMap decodeOutputs) :=
  C1_round_trip [0x48, 0xE9, 0x4E2D, 0x1F98A] (by decide)

/-- C2: whenever push returns an error, the parser state is Fresh
immediately afterwards, so subsequent behavior depends only on the bytes
pushed after the error; concretely, a 3-byte start byte followed by an
ASCII byte yields an unexpected-start-byte error on the second push, and
pushing the same ASCII byte again then yields its character. -/
theorem C2_reset_on_error :
    (∀ (s : State) (b : Nat) (e : Utf8ParserError),
      (Utf8Parser.push s b).2 = .error e → (Utf8Parser.push s b).1 = State.Fresh)
    ∧ (∀ (s : State) (b : Nat) (e : Utf8ParserError) (bs : List Nat),
      (Utf8Parser.push s b).2 = .error e →
        Utf8Parser.pushTrace (Utf8Parser.push s b).1 bs = Utf8Parser.pushTrace State.Fresh bs)
    ∧ Utf8Parser.pushTrace State.Fresh [0xE0, 0x61, 0x61]
      = (State.Fresh, [.ok none, .error (.UnexpectedStartByte 0x61), .ok (some 0x61)]) := by
  have key : ∀ (s : State) (b : Nat) (e : Utf8ParserError),
      (Utf8Parser.push s b).2 = .error e → (Utf8Parser.push s b).1 = State.Fresh := by
    intro s b e he
    rcases hp : Utf8Parser.push_inner_impl s b with ⟨s', r⟩
    cases r with
    | ok v =>
      rw [push_of_inner_ok hp] at he
      simp at he
    | error e2 =>
      rw [push_of_inner_error (show (Utf8Parser.push_inner_impl s b).2 = .error e2 by rw [hp])]
  exact ⟨key, fun s b e bs he => by rw [key s b e he], by decide⟩

theorem C2_reset_on_error_witness :
    (Utf8Parser.push (State.TwoLeft 0) 0x61).1 = State.Fresh :=
  C2_reset_on_error.1 (State.TwoLeft 0) 0x61 (.UnexpectedStartByte 0x61) (by decide)

/-- C3 counterexample: 0xE0 starts a 3-byte sequence whose state TwoLeft 0
still awaits two continuation bytes, so the next continuation byte is not
the final one of the sequence; yet pushing that earlier continuation byte
0x80 returns an overlong-encoding error instead of Ok none as the claim
requires. -/
theorem C3_counterexample :
    Utf8Parser.push State.Fresh 0xE0 = (State.TwoLeft 0, .ok none)
    ∧ Utf8Parser.push (State.TwoLeft 0) 0x80 = (State.Fresh, .error .OverlongEncoding) := by
  decide

/-- C3 amended: the overlong check runs at every continuation byte, not
only the last.  On the final continuation byte (state OneLeft) push errors
with overlong-encoding exactly when the accumulated value is below 0x80;
on an earlier continuation byte (states TwoLeft and ThreeLeft) push errors
with overlong-encoding exactly when the accumulated value shifted by the
remaining payload bits is still below the minimum for the sequence length
(0x800 for 3-byte, 0x10000 for 4-byte); in particular 0xC0 0x80 yields an
overlong-encoding error and 0xC2 0x80 yields character U+0080. -/
theorem C3_overlong_checks :
    (∀ c b : Nat, c < 0x8000 → 0x80 ≤ b → b < 0xC0 →
      ((Utf8Parser.push (State.OneLeft c) b).2 = .error .OverlongEncoding
        ↔ 64 * c + (b - 0x80) < 0x80))
    ∧ (∀ c b : Nat, c < 0x200 → 0x80 ≤ b → b < 0xC0 →
      ((Utf8Parser.push (State.TwoLeft c) b).2 = .error .OverlongEncoding
        ↔ 64 * (64 * c + (b - 0x80)) < 0x800))
    ∧ (∀ c b : Nat, c < 0x8 → 0x80 ≤ b → b < 0xC0 →
      ((Utf8Parser.push (State.ThreeLeft c) b).2 = .error .OverlongEncoding
        ↔ 4096 * (64 * c + (b - 0x80)) < 0x10000))
    ∧ Utf8Parser.pushTrace State.Fresh [0xC0, 0x80]
      = (State.Fresh, [.ok none, .error .OverlongEncoding])
    ∧ Utf8Parser.pushTrace State.Fresh [0xC2, 0x80]
      = (State.Fresh, [.ok none, .ok (some 0x80)]) := by
  refine ⟨?_, ?_, ?_, by decide, by decide⟩
  · intro c b hc h1 h2
    rw [push_oneLeft_cont (by omega) h1 h2]
    by_cases hov : 64 * c + (b - 0x80) < 0x80
    · rw [if_pos hov]
      simp [hov]
    · rw [if_neg hov]
      rcases hcf : charFromU32 (64 * c + (b - 0x80)) with _ | ch <;> simp [hov]
  · intro c b hc h1 h2
    rw [push_twoLeft_cont (by omega) h1 h2]
    by_cases hov : 64 * (64 * c + (b - 0x80)) < 0x800
    · rw [if_pos hov]
      simp [hov]
    · rw [if_neg hov]
      simp [hov]
  · intro c b hc h1 h2
    rw [push_threeLeft_cont (by omega) h1 h2]
    by_cases hov : 4096 * (64 * c + (b - 0x80)) < 0x10000
    · rw [if_pos hov]
      simp [hov]
    · rw [if_neg hov]
      simp [hov]

theorem C3_overlong_checks_witness :
    ((Utf8Parser.push (State.OneLeft 0) 0x80).2 = .error .OverlongEncoding
      ↔ 64 * 0 + (0x80 - 0x80) < 0x80) :=
  C3_overlong_checks.1 0 0x80 (by decide) (by decide) (by decide)

/-- C4: on the final continuation byte of a sequence that passes the
overlong check (accumulated value at least 0x80), push returns an
invalid-character error carrying the accumulated value exactly when that
value exceeds 0x10FFFF or lies in the surrogate range 0xD800-0xDFFF, and
otherwise returns the character with that scalar value. -/
theorem C4_scalar_validation (c b : Nat) (hc : c ≤ 0xFFFFFF) (h1 : 0x80 ≤ b) (h2 : b < 0xC0)
    (hpass : ¬ 64 * c + (b - 0x80) < 0x80) :
    ((0x10FFFF < 64 * c + (b - 0x80)
        ∨ (0xD800 ≤ 64 * c + (b - 0x80) ∧ 64 * c + (b - 0x80) ≤ 0xDFFF)) →
      Utf8Parser.push (State.OneLeft c) b
        = (State.Fresh, .error (.InvalidChar (64 * c + (b - 0x80)))))
    ∧ (¬(0x10FFFF < 64 * c + (b - 0x80)
        ∨ (0xD800 ≤ 64 * c + (b - 0x80) ∧ 64 * c + (b - 0x80) ≤ 0xDFFF)) →
      Utf8Parser.push (State.OneLeft c) b
        = (State.Fresh, .ok (some (64 * c + (b - 0x80))))) := by
  constructor
  · intro hbad
    rw [push_oneLeft_cont hc h1 h2, if_neg hpass]
    have hn : charFromU32 (64 * c + (b - 0x80)) = none := by
      rw [charFromU32]
      by_cases hs1 : 0xD800 ≤ 64 * c + (b - 0x80) ∧ 64 * c + (b - 0x80) ≤ 0xDFFF
      · rw [if_pos hs1]
      · rw [if_neg hs1, if_pos (by omega)]
    rw [hn]
  · intro hgood
    rw [push_oneLeft_cont hc h1 h2, if_neg hpass]
    have hn : charFromU32 (64 * c + (b - 0x80)) = some (64 * c + (b - 0x80)) := by
      rw [charFromU32, if_neg (by omega), if_neg (by omega)]
    rw [hn]

theorem C4_scalar_validation_witness :
    Utf8Parser.push (State.OneLeft 864) 0x80
      = (State.Fresh, .error (.InvalidChar (64 * 864 + (0x80 - 0x80)))) :=
  (C4_scalar_validation 864 0x80 (by decide) (by decide) (by decide) (by decide)).1
    (by decide)

/-- C5 counterexample: pushing 0xC2 twice makes the second push fail with
UnexpectedStartByte 0x02, which is the masked payload of the byte, not the
exact 8-bit byte 0xC2 that was pushed, refuting the claim that the error
carries the exact byte. -/
theorem C5_counterexample :
    Utf8Parser.push (Utf8Parser.push State.Fresh 0xC2).1 0xC2
      = (State.Fresh, .error (.UnexpectedStartByte 0x02))
    ∧ (0x02 : Nat) ≠ 0xC2 := by decide

/-- C5 amended: an invalid-byte error carries the exact byte that was
pushed; the unexpected-start-byte and unexpected-continuation-byte errors
carry the payload bits of the pushed byte (its class prefix masked off),
which coincide with the byte itself only for ASCII start bytes. -/
theorem C5_error_context :
    (∀ (s : State) (b v : Nat), b < 256 →
      (Utf8Parser.push s b).2 = .error (.InvalidByte v) → v = b)
    ∧ (∀ (s : State) (b v : Nat), b < 256 →
      (Utf8Parser.push s b).2 = .error (.UnexpectedContinuationByte v) →
        0x80 ≤ b ∧ b < 0xC0 ∧ v = b - 0x80)
    ∧ (∀ (s : State) (b v : Nat), b < 256 →
      (Utf8Parser.push s b).2 = .error (.UnexpectedStartByte v) →
        (b < 0x80 ∧ v = b) ∨ (0xC0 ≤ b ∧ b < 0xE0 ∧ v = b - 0xC0)
        ∨ (0xE0 ≤ b ∧ b < 0xF0 ∧ v = b - 0xE0)
        ∨ (0xF0 ≤ b ∧ b < 0xF8 ∧ v = b - 0xF0)) := by
  refine ⟨?_, ?_, ?_⟩
  · intro s b v hb he
    rcases push_error_forms s b hb _ he with ⟨_, h⟩ | ⟨_, _, _, h⟩ | ⟨_, h⟩ | h | ⟨w, h⟩
    · cases h; rfl
    · cases h
    · rcases h with ⟨_, h⟩ | ⟨_, _, h⟩ | ⟨_, _, h⟩ | ⟨_, _, h⟩ <;> cases h
    · cases h
    · cases h
  · intro s b v hb he
    rcases push_error_forms s b hb _ he with ⟨_, h⟩ | ⟨hb1, hb2, _, h⟩ | ⟨_, h⟩ | h | ⟨w, h⟩
    · cases h
    · cases h; exact ⟨hb1, hb2, rfl⟩
    · rcases h with ⟨_, h⟩ | ⟨_, _, h⟩ | ⟨_, _, h⟩ | ⟨_, _, h⟩ <;> cases h
    · cases h
    · cases h
  · intro s b v hb he
    rcases push_error_forms s b hb _ he with ⟨_, h⟩ | ⟨_, _, _, h⟩ | ⟨_, h⟩ | h | ⟨w, h⟩
    · cases h
    · cases h
    · rcases h with ⟨hr1, h⟩ | ⟨hr1, hr2, h⟩ | ⟨hr1, hr2, h⟩ | ⟨hr1, hr2, h⟩ <;> cases h
      · exact Or.inl ⟨hr1, rfl⟩
      · exact Or.inr (Or.inl ⟨hr1, hr2, rfl⟩)
      · exact Or.inr (Or.inr (Or.inl ⟨hr1, hr2, rfl⟩))
      · exact Or.inr (Or.inr (Or.inr ⟨hr1, hr2, rfl⟩))
    · cases h
    · cases h

theorem C5_error_context_witness :
    (0xC5 < 0x80 ∧ 0x05 = 0xC5) ∨ (0xC0 ≤ 0xC5 ∧ 0xC5 < 0xE0 ∧ 0x05 = 0xC5 - 0xC0)
    ∨ (0xE0 ≤ 0xC5 ∧ 0xC5 < 0xF0 ∧ 0x05 = 0xC5 - 0xE0)
    ∨ (0xF0 ≤ 0xC5 ∧ 0xC5 < 0xF8 ∧ 0x05 = 0xC5 - 0xF0) :=
  C5_error_context.2.2 (State.OneLeft 0) 0xC5 0x05 (by decide) (by decide)

/-- C6: every byte in 0x00-0x7F pushed in the Fresh state yields the
character with exactly that code point, and the state stays Fresh. -/
theorem C6_ascii {b : Nat} (h : b < 0x80) :
    Utf8Parser.push State.Fresh b = (State.Fresh, .ok (some b)) :=
  push_fresh_single h

theorem C6_ascii_witness :
    Utf8Parser.push State.Fresh 0x41 = (State.Fresh, .ok (some 0x41)) :=
  C6_ascii (by decide)

/-- C7: every byte with top five bits 11111 (at least 0xF8) pushed in any
state yields an invalid-byte error carrying that byte and leaves the state
Fresh; and such bytes are the only unconditional rejects, since every byte
below 0xF8 matches exactly one of the five byte classes. -/
theorem C7_invalid_bytes :
    (∀ b : Nat, 0xF8 ≤ b → b < 256 → ∀ s : State,
      Utf8Parser.push s b = (State.Fresh, .error (.InvalidByte b)))
    ∧ (∀ b < 0xF8,
      ([Utf8ByteType.Continuation, .Single, .Double, .Triple, .Quadruple].countP
        (fun k => k.matchesByte b)) = 1) :=
  ⟨fun b h1 h2 s => push_invalid h1 h2 s, by decide⟩

theorem C7_invalid_bytes_witness :
    Utf8Parser.push (State.TwoLeft 0) 0xFE = (State.Fresh, .error (.InvalidByte 0xFE)) :=
  C7_invalid_bytes.1 0xFE (by decide) (by decide) (State.TwoLeft 0)

/-- C8: in every state reachable from a fresh parser by pushing bytes, an
awaiting-state accumulator is below 2 to the 21st power, and one more push
of any byte preserves this invariant. -/
theorem C8_accumulator_invariant (bs : List Nat) (hb : ∀ b ∈ bs, b < 256) :
    Inv21 (Utf8Parser.run bs)
    ∧ ∀ b : Nat, b < 256 → Inv21 (Utf8Parser.push (Utf8Parser.run bs) b).1 := by
  have hs := strongInv_run bs hb
  have imp : ∀ s : State, StrongInv s → Inv21 s := by
    intro s h
    cases s with
    | Fresh => trivial
    | OneLeft c =>
      have hcc : c < 0x8000 := h
      show c < 2 ^ 21
      omega
    | TwoLeft c =>
      have hcc : c < 0x200 := h
      show c < 2 ^ 21
      omega
    | ThreeLeft c =>
      have hcc : c < 0x8 := h
      show c < 2 ^ 21
      omega
  exact ⟨imp _ hs, fun b hb2 => imp _ (strongInv_push hs hb2)⟩

theorem C8_accumulator_invariant_witness :
    Inv21 (Utf8Parser.run [0xF0, 0x90])
    ∧ Inv21 (Utf8Parser.push (Utf8Parser.run [0xF0, 0x90]) 0x8F).1 :=
  ⟨(C8_accumulator_invariant [0xF0, 0x90] (by decide)).1,
    (C8_accumulator_invariant [0xF0, 0x90] (by decide)).2 0x8F (by decide)⟩

/-- C9: from any reachable state, pushing any byte returns exactly one of
the three defined outcomes (no character yet, a decoded character, or an
error), and the debug assertions inside push_byte (accumulator at most
0xFFFFFF, continuation payload at most 0x3F) hold on every reachable call. -/
theorem C9_total_and_asserts (bs : List Nat) (b : Nat)
    (hbs : ∀ x ∈ bs, x < 256) (hb : b < 256) :
    push_asserts (Utf8Parser.run bs) b
    ∧ ((Utf8Parser.push (Utf8Parser.run bs) b).2 = .ok none
      ∨ (∃ ch, (Utf8Parser.push (Utf8Parser.run bs) b).2 = .ok (some ch))
      ∨ (∃ e, (Utf8Parser.push (Utf8Parser.run bs) b).2 = .error e)) := by
  constructor
  · have hs := strongInv_run bs hbs
    rcases Nat.lt_or_ge b 0x80 with h1 | h1
    · have hfb : ParsedByte.from_byte b = .ok (.Single b) := by
        rw [from_byte_spec b (by omega), if_pos h1]
      cases Utf8Parser.run bs <;> simp [push_asserts, hfb]
    rcases Nat.lt_or_ge b 0xC0 with h2 | h2
    · have hfb : ParsedByte.from_byte b = .ok (.ContinuationByte (b - 0x80)) := by
        rw [from_byte_spec b (by omega), if_neg (by omega), if_pos h2]
      rcases hrun : Utf8Parser.run bs with _ | c | c | c <;> rw [hrun] at hs <;>
        simp [push_asserts, hfb, push_byte_asserts]
      · have hcc : c < 0x8000 := hs
        omega
      · have hcc : c < 0x200 := hs
        omega
      · have hcc : c < 0x8 := hs
        omega
    rcases Nat.lt_or_ge b 0xE0 with h3 | h3
    · have hfb : ParsedByte.from_byte b = .ok (.StartDouble (b - 0xC0)) := by
        rw [from_byte_spec b (by omega), if_neg (by omega), if_neg (by omega), if_pos h3]
      cases Utf8Parser.run bs <;> simp [push_asserts, hfb]
    rcases Nat.lt_or_ge b 0xF0 with h4 | h4
    · have hfb : ParsedByte.from_byte b = .ok (.StartTriple (b - 0xE0)) := by
        rw [from_byte_spec b (by omega), if_neg (by omega), if_neg (by omega), if_neg (by omega),
          if_pos h4]
      cases Utf8Parser.run bs <;> simp [push_asserts, hfb]
    rcases Nat.lt_or_ge b 0xF8 with h5 | h5
    · have hfb : ParsedByte.from_byte b = .ok (.StartQuadruple (b - 0xF0)) := by
        rw [from_byte_spec b (by omega), if_neg (by omega), if_neg (by omega), if_neg (by omega),
          if_neg (by omega), if_pos h5]
      cases Utf8Parser.run bs <;> simp [push_asserts, hfb]
    · have hfb : ParsedByte.from_byte b = .error (.InvalidByte b) := by
        rw [from_byte_spec b hb, if_neg (by omega), if_neg (by omega), if_neg (by omega),
          if_neg (by omega), if_neg (by omega)]
      cases Utf8Parser.run bs <;> simp [push_asserts, hfb]
  · rcases hp : (Utf8Parser.push (Utf8Parser.run bs) b).2 with e | v
    · exact Or.inr (Or.inr ⟨e, rfl⟩)
    · cases v with
      | none => exact Or.inl rfl
      | some ch => exact Or.inr (Or.inl ⟨ch, rfl⟩)

theorem C9_total_and_asserts_witness :
    push_asserts (Utf8Parser.run [0xE2, 0x82]) 0xAC :=
  (C9_total_and_asserts [0xE2, 0x82] 0xAC (by decide) (by decide)).1

/-- C10: when the parser still awaits two (respectively three) more
continuation bytes and a continuation byte arrives, push returns an
overlong-encoding error immediately if the accumulated value shifted by
the remaining 6 (respectively 12) payload bits is still below 0x800
(respectively 0x10000); in particular 0xE0 0x80 errors on the second push
and a third byte 0x80 then yields an unexpected-continuation-byte error. -/
theorem C10_early_overlong :
    (∀ c b : Nat, c < 0x200 → 0x80 ≤ b → b < 0xC0 →
      64 * (64 * c + (b - 0x80)) < 0x800 →
      Utf8Parser.push (State.TwoLeft c) b = (State.Fresh, .error .OverlongEncoding))
    ∧ (∀ c b : Nat, c < 0x8 → 0x80 ≤ b → b < 0xC0 →
      4096 * (64 * c + (b - 0x80)) < 0x10000 →
      Utf8Parser.push (State.ThreeLeft c) b = (State.Fresh, .error .OverlongEncoding))
    ∧ Utf8Parser.pushTrace State.Fresh [0xE0, 0x80, 0x80]
      = (State.Fresh, [.ok none, .error .OverlongEncoding,
          .error (.UnexpectedContinuationByte 0)]) := by
  refine ⟨?_, ?_, by decide⟩
  · intro c b hc h1 h2 hov
    rw [push_twoLeft_cont (by omega) h1 h2, if_pos hov]
  · intro c b hc h1 h2 hov
    rw [push_threeLeft_cont (by omega) h1 h2, if_pos hov]

theorem C10_early_overlong_witness :
    Utf8Parser.push (State.TwoLeft 0) 0x80 = (State.Fresh, .error .OverlongEncoding) :=
  C10_early_overlong.1 0 0x80 (by decide) (by decide) (by decide) (by decide)
